import Mathlib

/-!
Shallow embedding of `soundclouddownloader/main.py` (class `SoundCloudDownloader`).

The external extractor (`yt_dlp`) and the filesystem are modelled as explicit
oracle data handed to the embedded functions: a probe/fetch outcome per track,
a directory listing, and a filesystem state of files, directories and created
zip archives.  Helper functions imported from `soundclouddownloader.utils`
(`clean_filename`, `create_zip`) are not under `src/`, so they are modelled
from the spec and marked as such in their doc comments.
-/

namespace SCDL

/-- Track record (`soundclouddownloader.dataclass.Track`), fields as used by
`main.py`: `Track(id=tid, title=title, artist=artist, url=url)`. -/
structure Track where
  id : String
  title : String
  artist : String
  url : String
deriving Repr, DecidableEq

/-- Playlist record (`soundclouddownloader.dataclass.Playlist`) as constructed in
`get_playlist_info`: id, title and the ordered track list. -/
structure Playlist where
  id : String
  title : String
  tracks : List Track
deriving Repr, DecidableEq

/-! ## Filename sanitization (`clean_filename`) -/

/-- Modelled from the spec: `clean_filename` lives in
`soundclouddownloader.utils`, which is not under `src/`.  The spec contract:
"strip or replace characters illegal or risky across common filesystems,
collapse whitespace, enforce a maximum length".  This is the defined unsafe
character set. -/
def unsafeChars : List Char := ['<', '>', ':', '"', '/', '\\', '|', '?', '*']

/-- Replace any whitespace character by a plain space (whitespace
normalization step of sanitization). -/
def normWS (c : Char) : Char := if c.isWhitespace then ' ' else c

/-- Collapse runs of spaces to a single space. -/
def collapseWS : List Char → List Char
  | [] => []
  | [c] => [c]
  | a :: b :: rest =>
    if a = ' ' && b = ' ' then collapseWS (b :: rest)
    else a :: collapseWS (b :: rest)

/-- Maximum filename length enforced by sanitization. -/
def maxNameLen : Nat := 255

/-- Modelled from the spec: `clean_filename` (in `soundclouddownloader.utils`,
not under `src/`): "map an arbitrary proposed filename/title string to a
filesystem-safe name: strip or replace characters illegal or risky across
common filesystems, collapse whitespace, enforce a maximum length"; a pure
total function. -/
def clean_filename (s : String) : String :=
  let cs := s.toList.filter (fun c => !unsafeChars.contains c)
  let cs := cs.map normWS
  let cs := collapseWS cs
  String.mk (cs.take maxNameLen)

/-- `noDoubleSpace l` holds when `l` has no two adjacent spaces. -/
def noDoubleSpace : List Char → Bool
  | [] => true
  | [_] => true
  | a :: b :: rest => !(a = ' ' && b = ' ') && noDoubleSpace (b :: rest)

theorem mem_collapseWS {c : Char} : ∀ {l : List Char}, c ∈ collapseWS l → c ∈ l := by
  intro l
  induction l with
  | nil => simp [collapseWS]
  | cons a rest ih =>
    cases rest with
    | nil => simp [collapseWS]
    | cons b t =>
      simp only [collapseWS]
      by_cases hab : (a = ' ' && b = ' ') = true
      · rw [if_pos hab]
        intro h
        exact List.mem_cons_of_mem a (ih h)
      · rw [if_neg hab]
        intro h
        rcases List.mem_cons.mp h with h1 | h2
        · exact List.mem_cons.mpr (Or.inl h1)
        · exact List.mem_cons_of_mem a (ih h2)

theorem collapseWS_cons_of_ne {b : Char} (t : List Char) (hb : b ≠ ' ') :
    collapseWS (b :: t) = b :: collapseWS t := by
  cases t with
  | nil => simp [collapseWS]
  | cons c t2 =>
    simp only [collapseWS]
    rw [if_neg (by simp [hb])]

theorem collapseWS_noDoubleSpace : ∀ l : List Char, noDoubleSpace (collapseWS l) = true := by
  intro l
  induction l with
  | nil => rfl
  | cons a rest ih =>
    cases rest with
    | nil => rfl
    | cons b t =>
      simp only [collapseWS]
      by_cases hab : (a = ' ' && b = ' ') = true
      · rw [if_pos hab]
        exact ih
      · rw [if_neg hab]
        by_cases hb : b = ' '
        · have ha : ¬ a = ' ' := by
            intro ha
            exact hab (by simp [ha, hb])
        -- head of collapseWS (b :: t) is ' ' only when b = ' '; a ≠ ' ' covers it
          cases hr : collapseWS (b :: t) with
          | nil => rfl
          | cons x r =>
            rw [hr] at ih
            simp only [noDoubleSpace, Bool.and_eq_true]
            exact ⟨by simp [ha], ih⟩
        · rw [collapseWS_cons_of_ne t hb]
          have ih2 : noDoubleSpace (b :: collapseWS t) = true := by
            rw [← collapseWS_cons_of_ne t hb]
            exact ih
          cases hr : collapseWS t with
          | nil => simp [noDoubleSpace, hb]
          | cons x r =>
            rw [hr] at ih2
            simp only [noDoubleSpace, Bool.and_eq_true] at ih2 ⊢
            exact ⟨by simp [hb], ih2⟩

theorem collapseWS_of_noDoubleSpace : ∀ {l : List Char}, noDoubleSpace l = true → collapseWS l = l := by
  intro l
  induction l with
  | nil => intro _; rfl
  | cons a rest ih =>
    intro h
    cases rest with
    | nil => rfl
    | cons b t =>
      simp only [noDoubleSpace, Bool.and_eq_true] at h
      simp only [collapseWS]
      have hcond : (decide (a = ' ') && decide (b = ' ')) = false := by
        have := h.1
        cases hd : (decide (a = ' ') && decide (b = ' ')) <;> simp_all
      rw [if_neg (by simp [hcond])]
      rw [ih h.2]

theorem noDoubleSpace_take : ∀ (n : Nat) (l : List Char), noDoubleSpace l = true →
    noDoubleSpace (l.take n) = true := by
  intro n
  induction n with
  | zero => intro l _; rfl
  | succ m ih =>
    intro l h
    cases l with
    | nil => rfl
    | cons a rest =>
      cases rest with
      | nil => simp [noDoubleSpace]
      | cons b t =>
        simp only [List.take_succ_cons]
        cases m with
        | zero => rfl
        | succ k =>
          simp only [noDoubleSpace, Bool.and_eq_true] at h
          have h2 := ih (b :: t) h.2
          simp only [List.take_succ_cons] at h2 ⊢
          simp only [noDoubleSpace, Bool.and_eq_true]
          exact ⟨h.1, h2⟩

theorem listMapSelf {α : Type} (f : α → α) : ∀ l : List α, (∀ a ∈ l, f a = a) → l.map f = l := by
  intro l
  induction l with
  | nil => intro _; rfl
  | cons a rest ih =>
    intro h
    simp only [List.map_cons]
    rw [h a (List.mem_cons_self a rest), ih (fun b hb => h b (List.mem_cons_of_mem a hb))]

theorem listFilterSelf {α : Type} (p : α → Bool) : ∀ l : List α, (∀ a ∈ l, p a = true) → l.filter p = l := by
  intro l
  induction l with
  | nil => intro _; rfl
  | cons a rest ih =>
    intro h
    simp only [List.filter_cons, h a (List.mem_cons_self a rest), if_pos]
    rw [ih (fun b hb => h b (List.mem_cons_of_mem a hb))]

theorem normWS_idem (c : Char) : normWS (normWS c) = normWS c := by
  simp only [normWS]
  by_cases h : c.isWhitespace
  · simp [h]
  · simp [h]

theorem mem_clean_filename {c : Char} {s : String} (h : c ∈ (clean_filename s).toList) :
    ∃ c0, (!unsafeChars.contains c0) = true ∧ c = normWS c0 := by
  simp only [clean_filename] at h
  have h1 : c ∈ collapseWS ((s.toList.filter (fun c => !unsafeChars.contains c)).map normWS) := by
    have := List.take_subset maxNameLen (collapseWS ((s.toList.filter (fun c => !unsafeChars.contains c)).map normWS))
    exact this h
  have h2 := mem_collapseWS h1
  rcases List.mem_map.mp h2 with ⟨c0, hc0, hmap⟩
  exact ⟨c0, (List.mem_filter.mp hc0).2, hmap.symm⟩

theorem clean_filename_no_unsafe {c : Char} {s : String} (h : c ∈ (clean_filename s).toList) :
    (!unsafeChars.contains c) = true := by
  rcases mem_clean_filename h with ⟨c0, hc0, rfl⟩
  simp only [normWS]
  by_cases hw : c0.isWhitespace
  · simp only [hw, if_pos]
    decide
  · simpa [hw] using hc0

theorem clean_filename_ws_normal {c : Char} {s : String} (h : c ∈ (clean_filename s).toList) :
    normWS c = c := by
  rcases mem_clean_filename h with ⟨c0, _, rfl⟩
  exact normWS_idem c0

theorem clean_filename_noDoubleSpace (s : String) :
    noDoubleSpace (clean_filename s).toList = true := by
  simp only [clean_filename]
  exact noDoubleSpace_take maxNameLen _ (collapseWS_noDoubleSpace _)

theorem clean_filename_length_le (s : String) :
    (clean_filename s).toList.length ≤ maxNameLen := by
  simp only [clean_filename]
  exact List.length_take_le maxNameLen _

theorem clean_filename_idem (s : String) :
    clean_filename (clean_filename s) = clean_filename s := by
  have hfilter : (clean_filename s).toList.filter (fun c => !unsafeChars.contains c)
      = (clean_filename s).toList :=
    listFilterSelf _ _ (fun c hc => clean_filename_no_unsafe hc)
  have hmap : ((clean_filename s).toList).map normWS = (clean_filename s).toList :=
    listMapSelf _ _ (fun c hc => clean_filename_ws_normal hc)
  have hcollapse : collapseWS (clean_filename s).toList = (clean_filename s).toList :=
    collapseWS_of_noDoubleSpace (clean_filename_noDoubleSpace s)
  have htake : ((clean_filename s).toList).take maxNameLen = (clean_filename s).toList :=
    List.take_of_length_le (clean_filename_length_le s)
  conv_lhs => rw [clean_filename]
  rw [hfilter, hmap, hcollapse, htake]
  rfl

/-- C8: `clean_filename` is a pure total Lean function (hence deterministic and
never-failing), it is idempotent, and its output contains no character from the
defined unsafe set. -/
theorem clean_filename_deterministic_idempotent_safe (s : String) :
    clean_filename (clean_filename s) = clean_filename s ∧
    ((clean_filename s).toList.all (fun c => !unsafeChars.contains c)) = true := by
  refine ⟨clean_filename_idem s, ?_⟩
  rw [List.all_eq_true]
  intro c hc
  exact clean_filename_no_unsafe hc

/-! ## Playlist metadata resolution (`get_playlist_info`, main.py lines 102-134) -/

/-- The fields of one raw extractor entry dict that `get_playlist_info` reads.
A missing key (`e.get(k)` returning `None`) is `none`; a present string value
`v` is `some v`.  Python truthiness treats `some ""` like `none`. -/
structure EntryDict where
  webpage_url : Option String
  url : Option String
  title : Option String
  id : Option String
  uploader : Option String
  uploader_id : Option String
deriving Repr, DecidableEq, Inhabited

/-- One element of the extractor's `entries` list: either a structured dict or
a `None`/non-dict placeholder (filtered out by `isinstance(e, dict)`). -/
inductive RawEntry where
  | null : RawEntry
  | dict (d : EntryDict) : RawEntry
deriving Repr, DecidableEq, Inhabited

/-- The top-level extractor result for a playlist URL, as read by
`get_playlist_info`: `playlist_info["id"]`, `playlist_info["title"]` and
`playlist_info.get("entries")`. -/
structure PlaylistInfo where
  id : String
  title : String
  entries : Option (List RawEntry)
deriving Repr, DecidableEq

/-- Python truthiness of an optional string: `None` and `""` are falsy. -/
def truthy : Option String → Bool
  | none => false
  | some s => !s.isEmpty

/-- Python `a or b` on optional strings: `a` when truthy, else `b`. -/
def pyOr (a b : Option String) : Option String := if truthy a then a else b

/-- The Track built from an entry dict, field for field as in the loop body:
`url = e.get("webpage_url") or e.get("url")`, `title = e.get("title")`,
`tid = e.get("id")`, `artist = e.get("uploader") or e.get("uploader_id") or ""`. -/
def trackOfDict (d : EntryDict) : Track :=
  { id := d.id.getD ""
    title := d.title.getD ""
    artist := (pyOr (pyOr d.uploader d.uploader_id) (some "")).getD ""
    url := (pyOr d.webpage_url d.url).getD "" }

/-- The loop body of `get_playlist_info` for one raw entry: `None`/non-dict
entries are dropped by the `isinstance` filter, and a dict entry is kept only
when `url and title and tid` is truthy (line 126: `if not (url and title and
tid): continue`). -/
def entryTrack : RawEntry → Option Track
  | .null => none
  | .dict d =>
    if truthy (pyOr d.webpage_url d.url) && truthy d.title && truthy d.id then
      some (trackOfDict d)
    else none

/-- Spec-side notion of a well-formed entry: "must be a structured record, not
an error/null placeholder; require a resolvable URL, a title, and an
identifier". -/
def wellFormed : RawEntry → Bool
  | .null => false
  | .dict d => truthy (pyOr d.webpage_url d.url) && truthy d.title && truthy d.id

/-- Total variant of `entryTrack`, only ever applied to well-formed entries. -/
def trackOfEntry : RawEntry → Track
  | .null => trackOfDict default
  | .dict d => trackOfDict d

/-- The raw entries sequence as the code reads it:
`raw_entries = playlist_info.get("entries") or []`. -/
def rawEntriesOf (info : PlaylistInfo) : List RawEntry := info.entries.getD []

/-- `get_playlist_info` (main.py lines 102-134).  The extractor call
`ydl.extract_info(playlist_url, download=False)` is modelled by its outcome
`extract`; it sits outside any `try`, so an extractor failure propagates as
the `.error` case.  On success the entries are filtered and mapped to tracks
exactly as the loop does. -/
def get_playlist_info (extract : Except String PlaylistInfo) : Except String Playlist :=
  match extract with
  | .error e => .error e
  | .ok info =>
    let tracks : List Track := (rawEntriesOf info).filterMap entryTrack
    .ok { id := info.id, title := info.title, tracks := tracks }

theorem entryTrack_eq_of_wellFormed (e : RawEntry) :
    entryTrack e = if wellFormed e then some (trackOfEntry e) else none := by
  cases e with
  | null => rfl
  | dict d =>
    simp only [entryTrack, wellFormed, trackOfEntry]

theorem filterMap_entryTrack (l : List RawEntry) :
    l.filterMap entryTrack = (l.filter wellFormed).map trackOfEntry := by
  induction l with
  | nil => rfl
  | cons e rest ih =>
    simp only [List.filterMap_cons, List.filter_cons]
    rw [entryTrack_eq_of_wellFormed]
    by_cases h : wellFormed e = true
    · simp only [h, if_pos, if_true]
      simp only [List.map_cons, ih]
    · simp only [h, if_neg, if_false, Bool.false_eq_true]
      exact ih

/-- C3: `get_playlist_info` keeps exactly the well-formed raw entries (a
structured record with a truthy resolvable URL, title and id) as Tracks and
excludes all others: the resulting track list is precisely the well-formed
sublist of the raw entries, mapped to Track records. -/
theorem get_playlist_info_filters_malformed (info : PlaylistInfo) :
    get_playlist_info (.ok info)
      = .ok { id := info.id, title := info.title,
              tracks := ((rawEntriesOf info).filter wellFormed).map trackOfEntry } ∧
    ((rawEntriesOf info).filter (fun e => !wellFormed e)).all
      (fun e => (entryTrack e).isNone) = true := by
  constructor
  · simp only [get_playlist_info, filterMap_entryTrack]
  · rw [List.all_eq_true]
    intro e he
    have h2 := (List.mem_filter.mp he).2
    rw [entryTrack_eq_of_wellFormed]
    have : wellFormed e = false := by
      cases hw : wellFormed e
      · rfl
      · rw [hw] at h2
        simp at h2
    simp [this]

/-- C10: the track list `get_playlist_info` produces is the subsequence of the
raw entries sequence consisting of the well-formed ones, in their original
relative order (`List.Sublist` of the raw sequence), mapped to Track records;
as a pure function of the extractor output it is deterministic. -/
theorem get_playlist_info_preserves_order (info : PlaylistInfo) :
    List.Sublist ((rawEntriesOf info).filter wellFormed) (rawEntriesOf info) ∧
    get_playlist_info (.ok info)
      = .ok { id := info.id, title := info.title,
              tracks := ((rawEntriesOf info).filter wellFormed).map trackOfEntry } := by
  constructor
  · exact List.filter_sublist _
  · simp only [get_playlist_info, filterMap_entryTrack]

/-! ## Single-track download (`download_track`, main.py lines 45-100) -/

/-- Observable steps of `download_track`, in program order: the metadata probe
(`extract_info(download=False)`), the fetch (`ydl.download`), the fixed
`time.sleep(0.5)` settle wait, and the fallback directory scan. -/
inductive Event where
  | probe
  | fetch
  | settleWait
  | scanDir
deriving Repr, DecidableEq, BEq

/-- Oracle data for one `download_track` call: outcome of the probe phase
(proposed filename, or the raised exception's message), outcome of the fetch
phase, and the target directory listing as seen after the settle wait. -/
structure TrackEnv where
  probe : Except String String
  fetch : Except String Unit
  dirContents : List String
deriving Repr

/-- `leads pat cs`: the character list `cs` begins with `pat`. -/
def leads : List Char → List Char → Bool
  | [], _ => true
  | _ :: _, [] => false
  | a :: as, b :: bs => a = b && leads as bs

/-- Python `s.startswith(pat)` over code points (structural, so that it
evaluates by kernel reduction). -/
def strBeginsWith (s pat : String) : Bool := leads pat.toList s.toList

/-- Index of the last `'.'` in a character list, if any. -/
def lastDotPos (cs : List Char) : Option Nat :=
  match cs.reverse.findIdx? (fun c => c = '.') with
  | some k => some (cs.length - 1 - k)
  | none => none

/-- `pathlib` stem of a file name: the name without its suffix, where a
suffix starts at the last dot only when that dot is neither the first nor the
last character of the name. -/
def fileStem (name : String) : String :=
  let cs := name.toList
  match lastDotPos cs with
  | some i => if 0 < i ∧ i < cs.length - 1 then String.mk (cs.take i) else name
  | none => name

/-- `pathlib` `with_suffix(".mp3")`: drop the existing suffix (same rule as
`fileStem`) and append `.mp3`. -/
def withSuffixMp3 (name : String) : String := fileStem name ++ ".mp3"

/-- `download_track` (main.py lines 45-100).  Both extractor calls sit in
`try/except Exception` blocks that log and `return None`, so each is modelled
by its outcome in `env`; the function itself has no failure channel.  After a
successful fetch the code sleeps 0.5 s, then resolves the file on disk:
first `filepath_without_ext.with_suffix(".mp3")`, then `filepath_without_ext`
itself, then the first directory entry whose stem starts with the sanitized
name; otherwise `None`.  The second component is the trace of observable
steps in program order. -/
def download_track (env : TrackEnv) : Option String × List Event :=
  match env.probe with
  | .error _ => (none, [Event.probe])
  | .ok filename =>
    let clean_name := clean_filename filename
    match env.fetch with
    | .error _ => (none, [Event.probe, Event.fetch])
    | .ok _ =>
      if withSuffixMp3 clean_name ∈ env.dirContents then
        (some (withSuffixMp3 clean_name), [Event.probe, Event.fetch, Event.settleWait])
      else if clean_name ∈ env.dirContents then
        (some clean_name, [Event.probe, Event.fetch, Event.settleWait])
      else
        match env.dirContents.filter (fun f => strBeginsWith (fileStem f) clean_name) with
        | [] => (none, [Event.probe, Event.fetch, Event.settleWait, Event.scanDir])
        | f :: _ => (some f, [Event.probe, Event.fetch, Event.settleWait, Event.scanDir])

/-- C1: if the probe phase raises (any exception message `e`, whatever the
rest of the run would do) or the fetch phase raises, `download_track` returns
the no-file result `none`; its return type has no exception channel, so no
per-track failure can escape into the playlist orchestration. -/
theorem download_track_catches_failures (e fname : String) (fetch : Except String Unit)
    (dir dir2 : List String) :
    (download_track ⟨.error e, fetch, dir⟩).1 = none ∧
    (download_track ⟨.ok fname, .error e, dir2⟩).1 = none := by
  exact ⟨rfl, rfl⟩

/-- The resolution procedure as the claim words it, for comparison with the
code: the sanitized path with the expected output extension, then the
sanitized path as-is, then a scan for any file whose NAME starts with the
sanitized stem.  The code instead matches the scan on the candidate file's
pathlib stem (`f.stem.startswith(clean_name)`, main.py line 91). -/
def resolveByFileName (clean_name : String) (dir : List String) : Option String :=
  if withSuffixMp3 clean_name ∈ dir then some (withSuffixMp3 clean_name)
  else if clean_name ∈ dir then some clean_name
  else (dir.filter (fun f => strBeginsWith f clean_name)).head?

/-- C7 counterexample: with proposed filename "a.b" (sanitization leaves it
unchanged) and a target directory holding only "a.bc", the claimed scan
("any file whose name starts with the sanitized stem") resolves "a.bc",
but `download_track` compares the candidate's pathlib stem "a" against
"a.b", misses it, and returns the no-file result `none`. -/
theorem download_track_scan_spec_mismatch :
    (download_track ⟨.ok "a.b", .ok (), ["a.bc"]⟩).1 = none ∧
    resolveByFileName (clean_filename "a.b") ["a.bc"] = some "a.bc" ∧
    clean_filename "a.b" = "a.b" := by
  refine ⟨?_, ?_, ?_⟩ <;> decide

/-- C7 (amended: the fallback scan matches on the candidate file's stem, not
its full name): after a successful probe and fetch, `download_track`
resolves the file by checking the sanitized name with the `.mp3` output
extension, then the sanitized name as-is, then the first directory entry
whose stem starts with the sanitized name, returning `none` when no check
matches (`List.head?` of the matching entries); and in the trace the fixed
settle wait strictly precedes the fallback directory scan. -/
theorem download_track_resolution_order (fname : String) (dir : List String) :
    (download_track ⟨.ok fname, .ok (), dir⟩).1 =
      (if withSuffixMp3 (clean_filename fname) ∈ dir then
        some (withSuffixMp3 (clean_filename fname))
      else if clean_filename fname ∈ dir then
        some (clean_filename fname)
      else (dir.filter (fun f => strBeginsWith (fileStem f) (clean_filename fname))).head?) ∧
    (download_track ⟨.ok fname, .ok (), dir⟩).2.indexOf Event.settleWait
      < (download_track ⟨.ok fname, .ok (), dir⟩).2.indexOf Event.scanDir := by
  constructor
  · simp only [download_track]
    by_cases h1 : withSuffixMp3 (clean_filename fname) ∈ dir
    · rw [if_pos h1, if_pos h1]
    · rw [if_neg h1, if_neg h1]
      by_cases h2 : clean_filename fname ∈ dir
      · rw [if_pos h2, if_pos h2]
      · rw [if_neg h2, if_neg h2]
        cases hf : dir.filter (fun f => strBeginsWith (fileStem f) (clean_filename fname)) with
        | nil => rfl
        | cons f rest => rfl
  · simp only [download_track]
    by_cases h1 : withSuffixMp3 (clean_filename fname) ∈ dir
    · rw [if_pos h1]
      show List.indexOf Event.settleWait [Event.probe, Event.fetch, Event.settleWait]
        < List.indexOf Event.scanDir [Event.probe, Event.fetch, Event.settleWait]
      decide
    · rw [if_neg h1]
      by_cases h2 : clean_filename fname ∈ dir
      · rw [if_pos h2]
        show List.indexOf Event.settleWait [Event.probe, Event.fetch, Event.settleWait]
          < List.indexOf Event.scanDir [Event.probe, Event.fetch, Event.settleWait]
        decide
      · rw [if_neg h2]
        cases hf : dir.filter (fun f => strBeginsWith (fileStem f) (clean_filename fname)) with
        | nil =>
          show List.indexOf Event.settleWait
              [Event.probe, Event.fetch, Event.settleWait, Event.scanDir]
            < List.indexOf Event.scanDir
              [Event.probe, Event.fetch, Event.settleWait, Event.scanDir]
          decide
        | cons f rest =>
          show List.indexOf Event.settleWait
              [Event.probe, Event.fetch, Event.settleWait, Event.scanDir]
            < List.indexOf Event.scanDir
              [Event.probe, Event.fetch, Event.settleWait, Event.scanDir]
          decide

/-! ## Filesystem model and playlist orchestration (`download_playlist`,
main.py lines 136-196) -/

/-- Filesystem state: the set of regular files (as a list of paths), the set
of directories, and the record of created zip archives with their member
lists.  Paths are plain strings; a path `p` lies under directory `d` when it
starts with `d ++ "/"`. -/
structure FS where
  files : List String
  dirs : List String
  zips : List (String × List String)
deriving Repr, DecidableEq

/-- `Path.mkdir(exist_ok=True)` (also covers `parents=True` here): idempotent
directory creation. -/
def mkdir (d : String) (fs : FS) : FS :=
  if d ∈ fs.dirs then fs else { fs with dirs := fs.dirs ++ [d] }

/-- `Path.unlink()` on a tracked file: the file stops existing. -/
def unlink (p : String) (fs : FS) : FS :=
  { fs with files := fs.files.filter (fun q => q ≠ p) }

/-- `shutil.rmtree(d)`: the directory and everything under it stop existing. -/
def rmtree (d : String) (fs : FS) : FS :=
  { fs with
    files := fs.files.filter (fun p => !strBeginsWith p (d ++ "/"))
    dirs := fs.dirs.filter (fun x => !(x = d) && !strBeginsWith x (d ++ "/")) }

/-- Relativize a path to a base directory (zip member naming). -/
def relTo (base p : String) : String :=
  if strBeginsWith p (base ++ "/") then String.mk (p.toList.drop (base ++ "/").toList.length) else p

/-- Modelled from the spec: `create_zip` lives in `soundclouddownloader.utils`,
which is not under `src/`.  Spec contract: "given a list of file paths and a
base directory, produce a single zip archive at a target path containing
those files with paths relative to the base directory". -/
def create_zip (files : List String) (zipPath : String) (base : String) (fs : FS) : FS :=
  { fs with
    files := fs.files ++ [zipPath]
    zips := fs.zips ++ [(zipPath, files.map (relTo base))] }

/-- Oracle data for one `download_playlist` call: the outcome of the
top-level `extract_info` call (via `get_playlist_info`), and the per-track
`download_track` return values in the order `as_completed` delivers them
(one entry per submitted track; `some p` when the track produced file `p`
inside the playlist directory, `none` on a skipped/failed track). -/
structure DPEnv where
  extract : Except String PlaylistInfo
  results : List (Option String)

/-- `download_playlist` (main.py lines 136-196).  Creates the output
directory and the sanitized playlist subdirectory, resolves the playlist
(uncaught on failure), collects the non-`None` per-track results into
`downloaded_files` (each successful `download_track` wrote its file into the
playlist directory, reflected in the files set), then: zero files gives the
`None` failure result; with files and `should_zip` it creates the zip,
unlinks every downloaded file, removes the playlist directory tree and
returns the zip path; otherwise it returns the playlist directory.  The
per-completion randomized sleep has no effect on result or filesystem and is
not part of this state model. -/
def download_playlist (env : DPEnv) (output_dir : String) (should_zip : Bool)
    (fs0 : FS) : Except String (Option String × FS) :=
  let fs1 := mkdir output_dir fs0
  match get_playlist_info env.extract with
  | .error e => .error e
  | .ok playlist =>
    let playlist_name := clean_filename playlist.title
    let playlist_dir := output_dir ++ "/" ++ playlist_name
    let fs2 := mkdir playlist_dir fs1
    let downloaded_files := env.results.filterMap id
    let fs3 := { fs2 with files := fs2.files ++ downloaded_files }
    if downloaded_files.isEmpty then
      .ok (none, fs3)
    else
      if should_zip then
        let zip_filename := output_dir ++ "/" ++ playlist_name ++ ".zip"
        let fs4 := create_zip downloaded_files zip_filename playlist_dir fs3
        let fs5 := downloaded_files.foldl (fun s p => unlink p s) fs4
        let fs6 := rmtree playlist_dir fs5
        .ok (some zip_filename, fs6)
      else
        .ok (some playlist_dir, fs3)

theorem filterMap_id_length {α : Type} (l : List (Option α)) :
    (l.filterMap id).length + (l.filter Option.isNone).length = l.length := by
  induction l with
  | nil => rfl
  | cons a rest ih =>
    cases a with
    | none =>
      simp only [List.filterMap_cons, List.filter_cons, id]
      simp only [Option.isNone_none, if_pos, List.length_cons]
      omega
    | some x =>
      simp only [List.filterMap_cons, List.filter_cons, id]
      simp only [Option.isNone_some, List.length_cons]
      simp only [Bool.false_eq_true, if_false]
      omega

theorem unlinkFold_dirs (l : List String) (fs : FS) :
    (l.foldl (fun s p => unlink p s) fs).dirs = fs.dirs := by
  induction l generalizing fs with
  | nil => rfl
  | cons p rest ih =>
    simp only [List.foldl_cons]
    rw [ih]
    rfl

theorem unlinkFold_zips (l : List String) (fs : FS) :
    (l.foldl (fun s p => unlink p s) fs).zips = fs.zips := by
  induction l generalizing fs with
  | nil => rfl
  | cons p rest ih =>
    simp only [List.foldl_cons]
    rw [ih]
    rfl

theorem unlinkFold_not_mem (l : List String) (fs : FS) (q : String) (hq : q ∈ l) :
    q ∉ (l.foldl (fun s p => unlink p s) fs).files := by
  induction l generalizing fs with
  | nil => cases hq
  | cons p rest ih =>
    simp only [List.foldl_cons]
    rcases List.mem_cons.mp hq with h1 | h2
    · subst h1
      -- q was unlinked first; later unlinks never re-add files
      have hsub : ∀ (m : List String) (s : FS),
          (m.foldl (fun s p => unlink p s) s).files ⊆ s.files := by
        intro m
        induction m with
        | nil => intro s x hx; exact hx
        | cons r rest2 ih2 =>
          intro s x hx
          have := ih2 (unlink r s) hx
          exact List.mem_of_mem_filter this
      intro hmem
      have := hsub rest (unlink q fs) hmem
      simp only [unlink, List.mem_filter, decide_eq_true_eq] at this
      exact this.2 rfl
    · exact ih (unlink p fs) h2

theorem rmtree_files_subset (d : String) (fs : FS) :
    (rmtree d fs).files ⊆ fs.files := by
  intro x hx
  exact List.mem_of_mem_filter hx

theorem rmtree_dir_not_mem (d : String) (fs : FS) : d ∉ (rmtree d fs).dirs := by
  intro h
  have h2 := (List.mem_filter.mp h).2
  simp at h2

/-- C6: a failure of the top-level playlist extraction is not caught: it
propagates out of `get_playlist_info` and out of `download_playlist`
unchanged, as the fatal `.error` outcome, for every output directory,
zip flag, filesystem state and per-track oracle. -/
theorem playlist_extraction_failure_propagates (e output_dir : String)
    (results : List (Option String)) (should_zip : Bool) (fs : FS) :
    get_playlist_info (.error e) = .error e ∧
    download_playlist ⟨.error e, results⟩ output_dir should_zip fs = .error e := by
  exact ⟨rfl, rfl⟩

theorem mkdir_files (d : String) (fs : FS) : (mkdir d fs).files = fs.files := by
  simp only [mkdir]
  split <;> rfl

theorem mkdir_zips (d : String) (fs : FS) : (mkdir d fs).zips = fs.zips := by
  simp only [mkdir]
  split <;> rfl

theorem replicate_none_filterMap (n : Nat) :
    (List.replicate n (none : Option String)).filterMap id = [] := by
  induction n with
  | zero => rfl
  | succ m ih => simp [List.replicate_succ, List.filterMap_cons, ih]

/-- C5: when zero tracks produce a file (every per-track result is the
no-file value `none`), `download_playlist` returns the `.ok none` failure
result rather than raising — distinct from the fatal `.error` case — and the
final filesystem state is the input state with only the two directories
created: no archive is created and no file is added or removed, in
particular when archival was requested. -/
theorem download_playlist_zero_success (info : PlaylistInfo) (n : Nat)
    (output_dir : String) (should_zip : Bool) (fs : FS) :
    download_playlist ⟨.ok info, List.replicate n none⟩ output_dir should_zip fs
      = .ok (none, mkdir (output_dir ++ "/" ++ clean_filename info.title)
          (mkdir output_dir fs)) ∧
    (mkdir (output_dir ++ "/" ++ clean_filename info.title) (mkdir output_dir fs)).zips
      = fs.zips ∧
    (mkdir (output_dir ++ "/" ++ clean_filename info.title) (mkdir output_dir fs)).files
      = fs.files := by
  refine ⟨?_, ?_, ?_⟩
  · simp only [download_playlist, get_playlist_info, replicate_none_filterMap,
      List.isEmpty_nil, if_true, List.append_nil]
  · rw [mkdir_zips, mkdir_zips]
  · rw [mkdir_files, mkdir_files]

theorem rmtree_zips (d : String) (fs : FS) : (rmtree d fs).zips = fs.zips := rfl

theorem dp_ok_empty (info : PlaylistInfo) (results : List (Option String))
    (od : String) (sz : Bool) (fs : FS) (h : results.filterMap id = []) :
    download_playlist ⟨.ok info, results⟩ od sz fs
      = .ok (none, mkdir (od ++ "/" ++ clean_filename info.title) (mkdir od fs)) := by
  simp only [download_playlist, get_playlist_info, h, List.isEmpty_nil, if_true,
    List.append_nil]

theorem dp_ok_nonempty_nozip (info : PlaylistInfo) (results : List (Option String))
    (od : String) (fs : FS) (h : (results.filterMap id).isEmpty = false) :
    download_playlist ⟨.ok info, results⟩ od false fs
      = .ok (some (od ++ "/" ++ clean_filename info.title),
          { mkdir (od ++ "/" ++ clean_filename info.title) (mkdir od fs) with
            files := (mkdir (od ++ "/" ++ clean_filename info.title) (mkdir od fs)).files
              ++ results.filterMap id }) := by
  simp only [download_playlist, get_playlist_info, h, Bool.false_eq_true, if_false]

theorem dp_ok_nonempty_zip (info : PlaylistInfo) (results : List (Option String))
    (od : String) (fs : FS) (h : (results.filterMap id).isEmpty = false) :
    download_playlist ⟨.ok info, results⟩ od true fs
      = .ok (some (od ++ "/" ++ clean_filename info.title ++ ".zip"),
          rmtree (od ++ "/" ++ clean_filename info.title)
            ((results.filterMap id).foldl (fun s p => unlink p s)
              (create_zip (results.filterMap id)
                (od ++ "/" ++ clean_filename info.title ++ ".zip")
                (od ++ "/" ++ clean_filename info.title)
                { mkdir (od ++ "/" ++ clean_filename info.title) (mkdir od fs) with
                  files := (mkdir (od ++ "/" ++ clean_filename info.title)
                      (mkdir od fs)).files ++ results.filterMap id }))) := by
  simp only [download_playlist, get_playlist_info, h, Bool.false_eq_true, if_false, if_true]

theorem zipCleanup_zips (dl : List String) (zipf pdir : String) (fs3 : FS) :
    (rmtree pdir (dl.foldl (fun s p => unlink p s) (create_zip dl zipf pdir fs3))).zips
      = fs3.zips ++ [(zipf, dl.map (relTo pdir))] := by
  rw [rmtree_zips, unlinkFold_zips]
  rfl

theorem zipCleanup_no_files (dl : List String) (zipf pdir : String) (fs3 : FS) (q : String)
    (hq : q ∈ dl) :
    q ∉ (rmtree pdir (dl.foldl (fun s p => unlink p s) (create_zip dl zipf pdir fs3))).files := by
  intro hmem
  exact unlinkFold_not_mem dl _ q hq (rmtree_files_subset _ _ hmem)

/-- C2: for a playlist of `N = results.length` submitted tracks of which
`K` fail (the `none` per-track outcomes) and `N−K` succeed,
`download_playlist` returns without raising, its result is non-`none`
exactly when `N−K ≥ 1`, the collected downloaded-files list has exactly
`N−K` entries (one per successful track), and the archive created when
zipping was requested contains exactly that list (relativized to the
playlist directory). -/
theorem download_playlist_success_iff_count (info : PlaylistInfo)
    (results : List (Option String)) (od : String) (sz : Bool) (fs : FS) :
    ∃ r fs',
      download_playlist ⟨.ok info, results⟩ od sz fs = .ok (r, fs') ∧
      r.isSome = decide (1 ≤ results.length - (results.filter Option.isNone).length) ∧
      (results.filterMap id).length
        = results.length - (results.filter Option.isNone).length ∧
      fs'.zips = fs.zips ++
        (if sz && !(results.filterMap id).isEmpty then
          [(od ++ "/" ++ clean_filename info.title ++ ".zip",
            (results.filterMap id).map (relTo (od ++ "/" ++ clean_filename info.title)))]
        else []) := by
  have hlen := filterMap_id_length results
  have hkey : (results.filterMap id).length
      = results.length - (results.filter Option.isNone).length := by omega
  cases hdl : results.filterMap id with
  | nil =>
    rw [hdl] at hkey
    refine ⟨none, _, dp_ok_empty info results od sz fs hdl, ?_, hkey, ?_⟩
    · have h0 : results.length - (results.filter Option.isNone).length = 0 := by
        simp only [List.length_nil] at hkey
        omega
      rw [h0]
      rfl
    · rw [mkdir_zips, mkdir_zips]
      simp
  | cons a t =>
    rw [hdl] at hkey
    have hne : (results.filterMap id).isEmpty = false := by
      rw [hdl]
      rfl
    have hge : 1 ≤ results.length - (results.filter Option.isNone).length := by
      simp only [List.length_cons] at hkey
      omega
    have hpos : decide (1 ≤ results.length - (results.filter Option.isNone).length)
        = true := decide_eq_true hge
    cases sz with
    | false =>
      refine ⟨some (od ++ "/" ++ clean_filename info.title), _,
        dp_ok_nonempty_nozip info results od fs hne, ?_, hkey, ?_⟩
      · rw [hpos]
        rfl
      · rw [show ({ mkdir (od ++ "/" ++ clean_filename info.title) (mkdir od fs) with
            files := (mkdir (od ++ "/" ++ clean_filename info.title)
              (mkdir od fs)).files ++ results.filterMap id } : FS).zips
            = (mkdir (od ++ "/" ++ clean_filename info.title) (mkdir od fs)).zips from rfl]
        rw [mkdir_zips, mkdir_zips]
        simp
    | true =>
      refine ⟨some (od ++ "/" ++ clean_filename info.title ++ ".zip"), _,
        dp_ok_nonempty_zip info results od fs hne, ?_, hkey, ?_⟩
      · rw [hpos]
        rfl
      · rw [zipCleanup_zips]
        rw [show ({ mkdir (od ++ "/" ++ clean_filename info.title) (mkdir od fs) with
            files := (mkdir (od ++ "/" ++ clean_filename info.title)
              (mkdir od fs)).files ++ results.filterMap id } : FS).zips
            = (mkdir (od ++ "/" ++ clean_filename info.title) (mkdir od fs)).zips from rfl]
        rw [mkdir_zips, mkdir_zips, hdl]
        simp

/-- C4: with archival requested and at least one successful track
(`some p` among the results), `download_playlist` creates a zip archive
whose members are exactly the downloaded files (relative to the playlist
subdirectory), returns the archive path, and afterwards none of the
per-track downloaded files exists and the playlist subdirectory no longer
exists. -/
theorem download_playlist_zip_cleanup (info : PlaylistInfo)
    (pre post : List (Option String)) (p od : String) (fs : FS) :
    ∃ fs',
      download_playlist ⟨.ok info, pre ++ some p :: post⟩ od true fs
        = .ok (some (od ++ "/" ++ clean_filename info.title ++ ".zip"), fs') ∧
      (od ++ "/" ++ clean_filename info.title ++ ".zip",
        ((pre ++ some p :: post).filterMap id).map
          (relTo (od ++ "/" ++ clean_filename info.title))) ∈ fs'.zips ∧
      ((pre ++ some p :: post).filterMap id).all
        (fun q => !(decide (q ∈ fs'.files))) = true ∧
      decide ((od ++ "/" ++ clean_filename info.title) ∈ fs'.dirs) = false := by
  have hmem : p ∈ (pre ++ some p :: post).filterMap id := by
    rw [List.filterMap_append, List.filterMap_cons]
    exact List.mem_append_right _ (List.mem_cons_self p _)
  have hne : ((pre ++ some p :: post).filterMap id).isEmpty = false := by
    cases hdl : (pre ++ some p :: post).filterMap id with
    | nil =>
      rw [hdl] at hmem
      cases hmem
    | cons a t => rfl
  refine ⟨_, dp_ok_nonempty_zip info (pre ++ some p :: post) od fs hne, ?_, ?_, ?_⟩
  · rw [zipCleanup_zips]
    exact List.mem_append_right _ (List.mem_singleton.mpr rfl)
  · rw [List.all_eq_true]
    intro q hq
    rw [Bool.not_eq_true']
    exact decide_eq_false (zipCleanup_no_files _ _ _ _ q hq)
  · exact decide_eq_false (rmtree_dir_not_mem _ _)

end SCDL
